import Mathlib

/-!
Shallow embedding of `pluralize-rs` (`src/lib.rs`).

Strings are modelled as Lean `String` (lists of characters); the
case-manipulation helpers of the `voca_rs` crate that `lib.rs` calls are
modelled for ASCII input (`Char.toLower` / `Char.toUpper`, which act on
ASCII letters, matching `voca_rs` on the English words this library
processes).

The compiled regular expressions that populate the four rule tables live in
`rules/*.txt`, which is not part of the sources here; a rule's compiled
pattern is therefore modelled abstractly as a function returning the capture
spans of the leftmost match (character indices into the searched word), and
an uncountable-table entry as a boolean matcher modelling
`Regex::find(..).is_some()`, i.e. an unanchored (containment) search.
Operations that can panic in Rust (`Option::unwrap`, string slicing) are
modelled in `Option`, with `none` standing for a panic.
-/

/-- Model of `voca_rs::case::lower_case`: the whole string lowercased. -/
def lower_case (s : String) : String :=
  String.mk (s.data.map Char.toLower)

/-- Model of `voca_rs::case::upper_case`: the whole string uppercased. -/
def upper_case (s : String) : String :=
  String.mk (s.data.map Char.toUpper)

/-- Model of `voca_rs::case::upper_first`: the first character uppercased,
the rest of the string left unchanged. -/
def upper_first (s : String) : String :=
  match s.data with
  | [] => ""
  | c :: rest => String.mk (Char.toUpper c :: rest)

/-- Whether a word boundary falls between `prev` and `c` inside a run of
alphanumeric characters (`next?` is the character after `c`): a lowercase
letter or digit followed by an uppercase letter, the end of an uppercase
acronym (uppercase, uppercase, then lowercase), or a digit followed by a
letter. Models the word splitting `voca_rs::case::camel_case` performs. -/
def wordBreak (prev c : Char) (next? : Option Char) : Bool :=
  ((prev.isLower || prev.isDigit) && c.isUpper) ||
  (prev.isUpper && c.isUpper &&
    (match next? with | some n => n.isLower | none => false)) ||
  (prev.isDigit && c.isAlpha)

/-- Split a character list into words: non-alphanumeric characters separate
words and are dropped, and runs of alphanumerics are further split at
`wordBreak` boundaries. `acc` holds the current word, reversed. -/
def splitWordsAux : List Char → List Char → List (List Char)
  | acc, [] => if acc.isEmpty then [] else [acc.reverse]
  | acc, c :: rest =>
    if !c.isAlphanum then
      (if acc.isEmpty then [] else [acc.reverse]) ++ splitWordsAux [] rest
    else
      match acc with
      | [] => splitWordsAux [c] rest
      | p :: _ =>
        if wordBreak p c rest.head? then
          acc.reverse :: splitWordsAux [c] rest
        else
          splitWordsAux (c :: acc) rest

/-- Uppercase the first character of a word and lowercase the rest. -/
def capitalizeWord (w : List Char) : List Char :=
  match w with
  | [] => []
  | c :: rest => Char.toUpper c :: rest.map Char.toLower

/-- Model of `voca_rs::case::camel_case`: split into words, lowercase the
first word, capitalize each later word, and concatenate. -/
def camel_case (s : String) : String :=
  match splitWordsAux [] s.data with
  | [] => ""
  | w :: ws => String.mk (w.map Char.toLower ++ (ws.map capitalizeWord).flatten)

/-- `restore_case` from `lib.rs`: classify `origin`'s casing style by the
first of five tests that succeeds and apply the corresponding transform to
`to_restore`; default to lowercasing. -/
def restore_case (origin : String) (to_restore : String) : String :=
  if origin == to_restore then
    to_restore
  else if origin == lower_case origin then
    lower_case to_restore
  else if origin == upper_case origin then
    upper_case to_restore
  else if origin == upper_first origin then
    upper_first to_restore
  else if origin == camel_case origin then
    camel_case to_restore
  else
    lower_case to_restore

/-- Replace every non-overlapping occurrence of `pat` (nonempty) in the
list, scanning left to right. The fuel argument starts at the list's length
and bounds the recursion; it never runs out on the calls `rustReplace`
makes. -/
def replaceAllFuel (pat rep : List Char) : Nat → List Char → List Char
  | _, [] => []
  | 0, s => s
  | fuel + 1, c :: rest =>
    if pat.isPrefixOf (c :: rest) then
      rep ++ replaceAllFuel pat rep fuel ((c :: rest).drop pat.length)
    else
      c :: replaceAllFuel pat rep fuel rest

/-- Model of Rust `str::replace`: replace all non-overlapping occurrences of
`pat` in `s` by `rep`, left to right; an empty pattern matches at every
character boundary. -/
def rustReplace (s pat rep : String) : String :=
  if pat.data.isEmpty then
    String.mk (rep.data ++ s.data.flatMap (fun c => c :: rep.data))
  else
    String.mk (replaceAllFuel pat.data rep.data s.data.length s.data)

/-- Capture spans of one regex match, as produced by `Regex::captures`:
`g0` is the span of the whole match and `g1`/`g2` the spans of the first two
capture groups (`none` when a group did not participate). Spans are
half-open character-index intervals into the searched word. `g0` is kept as
an `Option` so that the `m.get(0).unwrap()` in `lib.rs` is modelled
faithfully rather than made unfailing by construction. -/
structure Captures where
  g0 : Option (Nat × Nat)
  g1 : Option (Nat × Nat)
  g2 : Option (Nat × Nat)

/-- One entry of a rule table: the compiled case-insensitive pattern,
modelled abstractly as the function word ↦ captures of the leftmost match
(`none` when the pattern matches nowhere in the word), plus the replacement
template. -/
structure Rule where
  captures : String → Option Captures
  template : String

/-- The four immutable tables of `lib.rs` (`IRREGULAR`, `PLURAL_RULES`,
`SINGLAR_RULES`, `UNCOUNTABLE`), already in their runtime order (for the two
rule lists that is the reverse of the declaration order in `rules/*.txt`).
An uncountable entry is the predicate word ↦ `r.find(word).is_some()`. -/
structure Tables where
  irregular : List (String × String)
  pluralRules : List Rule
  singularRules : List Rule
  uncountable : List (String → Bool)

/-- Model of `rules.find_map(|(re, t)| re.captures(&word).map(..))` in
`replace_with_rules`: the captures and template of the first rule in the
list whose pattern matches `word`. -/
def findFirstMatch : List Rule → String → Option (Captures × String)
  | [], _ => none
  | r :: rs, w =>
    match r.captures w with
    | some c => some (c, r.template)
    | none => findFirstMatch rs w

/-- Model of the slice `word[0..n]`: `none` (a panic) when `n` is out of
range. -/
def sliceTo (s : List Char) (n : Nat) : Option (List Char) :=
  if n ≤ s.length then some (s.take n) else none

/-- Model of the slice `word[a..b]`: the characters in `[a, b)`, `none` (a
panic) when the span is invalid. -/
def sliceSpan (s : List Char) (a b : Nat) : Option (List Char) :=
  if a ≤ b ∧ b ≤ s.length then some ((s.take b).drop a) else none

/-- One iteration of the substitution loop in `replace_with_rules`: replace
every occurrence of the placeholder `pat` in the template `r` by the text
the group `g` captured in `word`, or by the empty string when the group is
absent. `none` models a panicking slice. -/
def substStep (word : String) (r : String) (pat : String)
    (g : Option (Nat × Nat)) : Option String :=
  match g with
  | some (a, b) =>
    (sliceSpan word.data a b).map (fun t => rustReplace r pat (String.mk t))
  | none => some (rustReplace r pat "")

/-- `replace_with_rules` from `lib.rs`: find the first matching rule; if
none matches return the word unchanged; if the matching rule's template is
exactly `$0` return the word unchanged; otherwise return the prefix of the
word before the match followed by the template with `$1` substituted and
then `$2` substituted. `none` models a reachable panic. -/
def replace_with_rules (word : String) (rules : List Rule) : Option String :=
  match findFirstMatch rules word with
  | none => some word
  | some (m, r) =>
    if r == "$0" then some word
    else
      match m.g0 with
      | none => none
      | some (s0, _) =>
        match sliceTo word.data s0 with
        | none => none
        | some result =>
          match substStep word r "$1" m.g1 with
          | none => none
          | some r1 =>
            match substStep word r1 "$2" m.g2 with
            | none => none
            | some r2 => some (String.mk result ++ r2)

/-- The first loop of `is_uncountable`: whether the lowercased word equals
either component of some irregular pair. -/
def irregularHit : List (String × String) → String → Bool
  | [], _ => false
  | (s, p) :: rest, lc =>
    if lc == s || lc == p then true else irregularHit rest lc

/-- The second loop of `is_uncountable`: whether some uncountable matcher
fires on the lowercased word. -/
def uncountableHit : List (String → Bool) → String → Bool
  | [], _ => false
  | m :: rest, lc => if m lc then true else uncountableHit rest lc

/-- `is_uncountable` from `lib.rs` (the `lower_case` binding of the source
is inlined). -/
def is_uncountable (T : Tables) (word : String) : Bool :=
  if irregularHit T.irregular (lower_case word) then false
  else uncountableHit T.uncountable (lower_case word)

/-- The irregular loop of `to_plural`: the stored plural of the first pair
whose singular form equals `lc`. -/
def lookupBySingular : List (String × String) → String → Option String
  | [], _ => none
  | (s, p) :: rest, lc => if lc == s then some p else lookupBySingular rest lc

/-- The irregular loop of `to_singular`: the stored singular of the first
pair whose plural form equals `lc`. -/
def lookupByPlural : List (String × String) → String → Option String
  | [], _ => none
  | (s, p) :: rest, lc => if lc == p then some s else lookupByPlural rest lc

/-- `to_plural` from `lib.rs` (`none` models a panic inside
`replace_with_rules`). -/
def to_plural (T : Tables) (word : String) : Option String :=
  if is_uncountable T word then some word
  else
    match lookupBySingular T.irregular (lower_case word) with
    | some p => some (restore_case word p)
    | none => (replace_with_rules word T.pluralRules).map (restore_case word)

/-- `to_singular` from `lib.rs`. -/
def to_singular (T : Tables) (word : String) : Option String :=
  if is_uncountable T word then some word
  else
    match lookupByPlural T.irregular (lower_case word) with
    | some s => some (restore_case word s)
    | none =>
      (replace_with_rules word T.singularRules).map (restore_case word)

/-- The irregular loop of `is_plural`: for the first pair one of whose
components equals `lc`, `false` when it is the singular component and
`true` when it is the plural one (the singular test comes first within each
pair, as in the source). -/
def irregularPluralFlag : List (String × String) → String → Option Bool
  | [], _ => none
  | (s, p) :: rest, lc =>
    if lc == s then some false
    else if lc == p then some true
    else irregularPluralFlag rest lc

/-- The irregular loop of `is_singular`, with the polarity of
`irregularPluralFlag` swapped (the plural test comes first within each
pair). -/
def irregularSingularFlag : List (String × String) → String → Option Bool
  | [], _ => none
  | (s, p) :: rest, lc =>
    if lc == p then some false
    else if lc == s then some true
    else irregularSingularFlag rest lc

/-- `is_plural` from `lib.rs`: note that the fixed-point test applies the
plural rules to the lowercased word. -/
def is_plural (T : Tables) (word : String) : Option Bool :=
  if is_uncountable T word then some false
  else
    match irregularPluralFlag T.irregular (lower_case word) with
    | some b => some b
    | none =>
      (replace_with_rules (lower_case word) T.pluralRules).map
        (fun r => lower_case word == r)

/-- `is_singular` from `lib.rs`. -/
def is_singular (T : Tables) (word : String) : Option Bool :=
  if is_uncountable T word then some false
  else
    match irregularSingularFlag T.irregular (lower_case word) with
    | some b => some b
    | none =>
      (replace_with_rules (lower_case word) T.singularRules).map
        (fun r => lower_case word == r)

/-! ### Specification-side definitions

Each `...Spec` / `...Claimed` definition below is written from the words of
the specification (not from the source), to be compared with the
corresponding definition above. -/

/-- Spec wording of `is_uncountable`: false when the lowercased word equals
either component of any irregular pair, otherwise true iff some uncountable
matcher fires on the lowercased word. -/
def isUncountableSpec (T : Tables) (word : String) : Bool :=
  !(T.irregular.any fun p => lower_case word == p.1 || lower_case word == p.2)
    && T.uncountable.any (fun m => m (lower_case word))

/-- Spec wording of `to_plural`'s decision order: unchanged when
uncountable; else the restored stored plural of the first irregular pair
whose singular form is the lowercased word; else the restored result of the
plural rules. -/
def toPluralSpec (T : Tables) (word : String) : Option String :=
  if is_uncountable T word then some word
  else
    match T.irregular.find? (fun p => lower_case word == p.1) with
    | some p => some (restore_case word p.2)
    | none => (replace_with_rules word T.pluralRules).map (restore_case word)

/-- Spec wording of `is_plural`'s decision order: false when uncountable;
else decided by the first irregular pair one of whose components is the
lowercased word (false for the singular component, true for the plural
one); else true iff the lowercased word is a fixed point of the plural
rules. -/
def isPluralSpec (T : Tables) (word : String) : Option Bool :=
  if is_uncountable T word then some false
  else
    match T.irregular.find?
        (fun p => lower_case word == p.1 || lower_case word == p.2) with
    | some p => some (!(lower_case word == p.1))
    | none =>
      (replace_with_rules (lower_case word) T.pluralRules).map
        (fun r => lower_case word == r)

/-- The text captured by a group, or the empty string when the group is
absent (spec wording of the substitution inputs); `none` models a
panicking slice. -/
def groupTextOrEmpty (word : String) (g : Option (Nat × Nat)) :
    Option String :=
  match g with
  | none => some ""
  | some (a, b) => (sliceSpan word.data a b).map String.mk

/-- Spec wording of `replace_with_rules`: only the first rule (in stored
order) whose pattern matches is applied; no match leaves the word
unchanged; a template of exactly `$0` leaves the word unchanged; otherwise
the result is the prefix of the word before the match followed by the
template with `$1` and then `$2` substituted by the captured texts, the
text after the match span being dropped. -/
def replaceWithRulesSpec (word : String) (rules : List Rule) :
    Option String :=
  match rules.find? (fun r => (r.captures word).isSome) with
  | none => some word
  | some r =>
    match r.captures word with
    | none => some word
    | some m =>
      if r.template == "$0" then some word
      else do
        let (s0, _) ← m.g0
        let pre ← sliceTo word.data s0
        let t1 ← groupTextOrEmpty word m.g1
        let t2 ← groupTextOrEmpty word m.g2
        pure (String.mk pre ++
          rustReplace (rustReplace r.template "$1" t1) "$2" t2)

/-- The claim's style (d) for `restore_case`: first letter capitalized,
rest lowercased. -/
def claimCapitalize (s : String) : String :=
  match s.data with
  | [] => ""
  | c :: rest => String.mk (Char.toUpper c :: rest.map Char.toLower)

/-- The claim's style (e) for `restore_case`: every word capitalized. -/
def claimEveryWordCap (s : String) : String :=
  String.mk ((splitWordsAux [] s.data).map capitalizeWord).flatten

/-- `restore_case` as the claim words it: the same five tests in order, but
with test (d) comparing against the first-letter-capitalized /
rest-lowercase form and test (e) against the every-word-capitalized form. -/
def restoreCaseClaimed (origin : String) (to_restore : String) : String :=
  if origin == to_restore then
    to_restore
  else if origin == lower_case origin then
    lower_case to_restore
  else if origin == upper_case origin then
    upper_case to_restore
  else if origin == claimCapitalize origin then
    claimCapitalize to_restore
  else if origin == claimEveryWordCap origin then
    claimEveryWordCap to_restore
  else
    lower_case to_restore

/-- The casing styles `restore_case` distinguishes. -/
inductive CaseStyle
  | passThrough
  | lowerStyle
  | upperStyle
  | upperFirstStyle
  | camelStyle
  | unknown
deriving DecidableEq

/-- Classification of `origin`'s casing style relative to the candidate, in
the amended claim's priority order: pass-through, all-lowercase,
all-uppercase, first-character-uppercased (rest unchanged), camel case,
otherwise unknown. -/
def classifyStyle (origin : String) (to_restore : String) : CaseStyle :=
  if origin == to_restore then .passThrough
  else if origin == lower_case origin then .lowerStyle
  else if origin == upper_case origin then .upperStyle
  else if origin == upper_first origin then .upperFirstStyle
  else if origin == camel_case origin then .camelStyle
  else .unknown

/-- Application of a classified casing style to the candidate; the unknown
style defaults to lowercasing. -/
def applyStyle : CaseStyle → String → String
  | .passThrough, c => c
  | .lowerStyle, c => lower_case c
  | .upperStyle, c => upper_case c
  | .upperFirstStyle, c => upper_first c
  | .camelStyle, c => camel_case c
  | .unknown, c => lower_case c

/-- The amended claim's reading of `restore_case`: classify, then apply. -/
def restoreCaseAmended (origin : String) (to_restore : String) : String :=
  applyStyle (classifyStyle origin to_restore) to_restore

/-- Simultaneous, independent substitution of the placeholders `$1` and
`$2` in a template: one left-to-right pass over the template, each
placeholder occurrence replaced by the corresponding captured text. -/
def substSimAux (g1 g2 : List Char) : List Char → List Char
  | [] => []
  | '$' :: '1' :: rest => g1 ++ substSimAux g1 g2 rest
  | '$' :: '2' :: rest => g2 ++ substSimAux g1 g2 rest
  | c :: rest => c :: substSimAux g1 g2 rest

/-- Simultaneous per-placeholder substitution on strings. -/
def substSimultaneous (t g1 g2 : String) : String :=
  String.mk (substSimAux g1.data g2.data t.data)

/-! ### Well-formedness of capture spans

`Regex::captures` guarantees that group 0 is present and that every
reported span is a valid range into the searched string; these are exactly
the conditions under which none of the modelled panics can fire. -/

/-- A reported span is within a word of length `n`. Absent groups are
vacuously fine. -/
def wfSpan (n : Nat) : Option (Nat × Nat) → Prop
  | none => True
  | some (a, b) => a ≤ b ∧ b ≤ n

/-- Captures as `Regex::captures` guarantees them for a word of length `n`:
group 0 present, all spans valid. -/
def wfCaptures (n : Nat) (c : Captures) : Prop :=
  (∃ a b, c.g0 = some (a, b)) ∧
    wfSpan n c.g0 ∧ wfSpan n c.g1 ∧ wfSpan n c.g2

/-- A rule whose pattern only ever reports well-formed captures. -/
def wfRule (r : Rule) : Prop :=
  ∀ w c, r.captures w = some c → wfCaptures w.data.length c

/-- Tables whose two rule lists contain only well-formed rules. -/
def WFTables (T : Tables) : Prop :=
  (∀ r ∈ T.pluralRules, wfRule r) ∧ (∀ r ∈ T.singularRules, wfRule r)

/-! ### Tables modelled from the specification

The concrete tables `rules/irregular.txt`, `rules/plural.txt`,
`rules/singular.txt` and `rules/uncountable.txt` are not among the sources;
the entries below are modelled from the examples the specification states
(`child`/`children`, `water` uncountable, the regular suffix rule
`word` → `words` and back). -/

/-- Whether `pat` occurs as a contiguous sublist of `s`. -/
def hasSubstr : List Char → List Char → Bool
  | [], pat => pat.isEmpty
  | c :: rest, pat => pat.isPrefixOf (c :: rest) || hasSubstr rest pat

/-- Modelled from the spec: the catch-all plural rule (the tail of the
`ss?$`-free word), matching the empty span at the end of the word and
appending `s` — the behavior the spec's regular-suffix example
`to_plural("word") == "words"` requires. -/
def appendSRule : Rule :=
  { captures := fun w =>
      some ⟨some (w.data.length, w.data.length), none, none⟩,
    template := "s" }

/-- Modelled from the spec: the singular rule stripping a trailing `s`
(case-insensitively), as the spec's example `to_singular("words") ==
"word"` requires: it matches the span of the final letter when that letter
is an `s` and replaces it by the empty template. -/
def stripSRule : Rule :=
  { captures := fun w =>
      if (w.data.getLast?.map Char.toLower) == some 's' then
        some ⟨some (w.data.length - 1, w.data.length), none, none⟩
      else none,
    template := "" }

/-- Modelled from the spec: tables holding the irregular pair
`child = children`, the uncountable pattern `water` (tested by containment,
as `Regex::find` does), and the two regular suffix rules above. -/
def specTables : Tables :=
  { irregular := [("child", "children")],
    pluralRules := [appendSRule],
    singularRules := [stripSRule],
    uncountable := [fun lc => hasSubstr lc.data "water".data] }

/-- A concrete rule whose first capture group captures text containing the
literal characters `$2`, used to exhibit the order of the two placeholder
substitutions. On the word `a$2b` it matches the whole word, group 1
capturing `$2` and group 2 capturing `b`. -/
def dollarRule : Rule :=
  { captures := fun w =>
      if w == "a$2b" then some ⟨some (0, 4), some (1, 3), some (3, 4)⟩
      else none,
    template := "x$1y" }

/-! ### Helper lemmas -/

theorem irregularHit_eq_any (l : List (String × String)) (lc : String) :
    irregularHit l lc = l.any (fun p => lc == p.1 || lc == p.2) := by
  induction l with
  | nil => rfl
  | cons p rest ih =>
    obtain ⟨s, pl⟩ := p
    simp only [irregularHit, List.any_cons]
    cases h : (lc == s || lc == pl) with
    | true => simp [h]
    | false => simp [h, ih]

theorem uncountableHit_eq_any (l : List (String → Bool)) (lc : String) :
    uncountableHit l lc = l.any (fun m => m lc) := by
  induction l with
  | nil => rfl
  | cons m rest ih =>
    simp only [uncountableHit, List.any_cons]
    cases h : m lc with
    | true => simp [h]
    | false => simp [h, ih]

theorem lookupBySingular_eq_find (l : List (String × String)) (lc : String) :
    lookupBySingular l lc =
      (l.find? (fun p => lc == p.1)).map Prod.snd := by
  induction l with
  | nil => rfl
  | cons p rest ih =>
    obtain ⟨s, pl⟩ := p
    simp only [lookupBySingular]
    cases h : (lc == s) with
    | true => simp [List.find?, h]
    | false => simp [List.find?, h, ih]

theorem irregularPluralFlag_eq_find (l : List (String × String))
    (lc : String) :
    irregularPluralFlag l lc =
      (l.find? (fun p => lc == p.1 || lc == p.2)).map
        (fun p => !(lc == p.1)) := by
  induction l with
  | nil => rfl
  | cons p rest ih =>
    obtain ⟨s, pl⟩ := p
    simp only [irregularPluralFlag]
    cases hs : (lc == s) with
    | true => simp [List.find?, hs]
    | false =>
      cases hp : (lc == pl) with
      | true => simp [List.find?, hs, hp]
      | false => simp [List.find?, hs, hp, ih]

/-! ### Claim theorems -/

/-- Claim C1: for every choice of tables and every input word, `to_plural`
follows the fixed decision order — an uncountable word is returned
unchanged; otherwise, when the lowercased word equals the stored singular
form of some irregular pair, the result is `restore_case` of the stored
plural of the first such pair in stored order; otherwise the result is
`restore_case` of the plural rules applied to the word. -/
theorem to_plural_decision_order (T : Tables) (w : String) :
    to_plural T w = toPluralSpec T w := by
  unfold to_plural toPluralSpec
  rw [lookupBySingular_eq_find]
  cases T.irregular.find? (fun p => lower_case w == p.1) <;> rfl

/-- Claim C2: for every choice of tables and every input word, `is_plural`
returns false on uncountable words; otherwise the first irregular pair one
of whose components equals the lowercased word decides (false for the
singular component, true for the plural one); otherwise it returns true iff
the lowercased word is a fixed point of the plural rule list. -/
theorem is_plural_decision_order (T : Tables) (w : String) :
    is_plural T w = isPluralSpec T w := by
  unfold is_plural isPluralSpec
  rw [irregularPluralFlag_eq_find]
  cases T.irregular.find? (fun p => lower_case w == p.1 || lower_case w == p.2)
    <;> rfl

/-- Claim C3, counterexample: the claim describes test (d) of
`restore_case` as comparing against the first-letter-capitalized /
rest-lowercase form, but the code compares against `upper_first` (first
character uppercased, rest unchanged) and applies `upper_first`; likewise
the claim's test (e) (every word capitalized) differs from the code's
camel-case test. At `("Foo", "bAR")` the code produces `"BAR"` while the
claimed procedure produces `"Bar"`; at `("fooBar", "ab cd")` the code
produces `"abCd"` while the claimed procedure produces `"ab cd"`. -/
theorem restore_case_style_counterexample :
    restore_case "Foo" "bAR" = "BAR" ∧
      restoreCaseClaimed "Foo" "bAR" = "Bar" ∧
      restore_case "fooBar" "ab cd" = "abCd" ∧
      restoreCaseClaimed "fooBar" "ab cd" = "ab cd" ∧
      ("BAR" : String) ≠ "Bar" ∧ ("abCd" : String) ≠ "ab cd" := by
  decide

/-- Claim C3, amended: for every pair of strings, `restore_case` tests in
this exact priority order whether the original equals (a) the candidate
itself, (b) its own all-lowercase form, (c) its all-uppercase form, (d) its
form with the first character uppercased and the rest unchanged, (e) its
camel-case form; the first matching test's transform is applied to the
candidate, and when none matches the all-lowercase transform is applied;
the function is total over all strings including the empty string. -/
theorem restore_case_amended_eq (origin c : String) :
    restore_case origin c = restoreCaseAmended origin c := by
  unfold restore_case restoreCaseAmended classifyStyle
  split_ifs <;> rfl

/-- Claim C5: for every choice of tables and every word, `is_uncountable`
lowercases the word, returns false when the lowercased word equals either
component of any irregular pair, and otherwise returns true iff some
uncountable matcher (modelling an unanchored containment search) fires on
the lowercased word. -/
theorem is_uncountable_decision_order (T : Tables) (w : String) :
    is_uncountable T w = isUncountableSpec T w := by
  unfold is_uncountable isUncountableSpec
  rw [irregularHit_eq_any, uncountableHit_eq_any]
  cases T.irregular.any (fun p => lower_case w == p.1 || lower_case w == p.2)
    <;> simp

/-- Claim C6: every word reported uncountable is reported neither plural
nor singular. -/
theorem uncountable_neither_plural_nor_singular (T : Tables) (w : String)
    (h : is_uncountable T w = true) :
    is_plural T w = some false ∧ is_singular T w = some false := by
  unfold is_plural is_singular
  simp [h]

/-- Witness for C6 at the modelled tables and the word `water`. -/
theorem uncountable_neither_plural_nor_singular_witness :
    is_uncountable specTables "water" = true ∧
      is_plural specTables "water" = some false ∧
      is_singular specTables "water" = some false :=
  ⟨by decide,
    uncountable_neither_plural_nor_singular specTables "water" (by decide)⟩

/-- Claim C8: on the modelled tables, `to_plural` preserves the input's
casing style on the spec's three examples. -/
theorem to_plural_case_preservation :
    to_plural specTables "Word" = some "Words" ∧
      to_plural specTables "WORD" = some "WORDS" ∧
      to_plural specTables "word" = some "words" := by
  decide

theorem substStep_eq_groupText (w r pat : String) (g : Option (Nat × Nat)) :
    substStep w r pat g =
      (groupTextOrEmpty w g).map (fun t => rustReplace r pat t) := by
  cases g with
  | none => rfl
  | some ab =>
    obtain ⟨a, b⟩ := ab
    simp only [substStep, groupTextOrEmpty]
    cases sliceSpan w.data a b <;> rfl

/-- Claim C4: for every word and rule list, `replace_with_rules` applies
only the first rule in stored order whose pattern matches; with no match
the word is returned unchanged; a template of exactly `$0` returns the word
unchanged; otherwise the result is the part of the word before the match
followed by the template with `$1` and `$2` substituted by the captured
texts (empty for an absent group), the text after the match span being
dropped. -/
theorem replace_with_rules_first_match (w : String) (rules : List Rule) :
    replace_with_rules w rules = replaceWithRulesSpec w rules := by
  induction rules with
  | nil => rfl
  | cons r rs ih =>
    unfold replace_with_rules replaceWithRulesSpec
    unfold replace_with_rules replaceWithRulesSpec at ih
    cases h : r.captures w with
    | none =>
      rw [List.find?_cons_of_neg]
      · simpa only [findFirstMatch, h] using ih
      · simp [h]
    | some m =>
      rw [List.find?_cons_of_pos]
      · simp only [findFirstMatch, h]
        cases h0 : (r.template == "$0") with
        | true => simp [h0]
        | false =>
          simp only [h0, Bool.false_eq_true, if_false,
            substStep_eq_groupText]
          cases hg0 : m.g0 with
          | none => rfl
          | some s0e0 =>
            obtain ⟨s0, e0⟩ := s0e0
            cases hs : sliceTo w.data s0 with
            | none => simp [Option.bind, hs]
            | some pre =>
              cases hg1 : groupTextOrEmpty w m.g1 with
              | none => simp [Option.bind, hs, hg1]
              | some t1 =>
                cases hg2 : groupTextOrEmpty w m.g2 with
                | none => simp [Option.bind, hs, hg1, hg2]
                | some t2 => simp [Option.bind, hs, hg1, hg2]
      · simp [h]

theorem findFirstMatch_mem (rules : List Rule) (w : String) (m : Captures)
    (t : String) (h : findFirstMatch rules w = some (m, t)) :
    ∃ r ∈ rules, r.captures w = some m ∧ r.template = t := by
  induction rules with
  | nil => simp [findFirstMatch] at h
  | cons r rs ih =>
    simp only [findFirstMatch] at h
    cases hc : r.captures w with
    | some c =>
      rw [hc] at h
      obtain ⟨hm, ht⟩ := Prod.mk.injEq .. ▸ Option.some.injEq .. ▸ h
      exact ⟨r, List.mem_cons_self r rs, by rw [hc, hm], ht⟩
    | none =>
      rw [hc] at h
      obtain ⟨r', hr', hcap, ht⟩ := ih h
      exact ⟨r', List.mem_cons_of_mem r hr', hcap, ht⟩

theorem substStep_isSome (w r pat : String) (g : Option (Nat × Nat))
    (hg : wfSpan w.data.length g) : (substStep w r pat g).isSome := by
  cases g with
  | none => rfl
  | some ab =>
    obtain ⟨a, b⟩ := ab
    simp only [wfSpan] at hg
    have hb : b ≤ w.length := hg.2
    simp [substStep, sliceSpan, hg.1, hb]

theorem replace_with_rules_isSome (w : String) (rules : List Rule)
    (hw : ∀ r ∈ rules, wfRule r) :
    (replace_with_rules w rules).isSome := by
  unfold replace_with_rules
  cases hf : findFirstMatch rules w with
  | none => rfl
  | some mt =>
    obtain ⟨m, t⟩ := mt
    obtain ⟨r, hr, hcap, ht⟩ := findFirstMatch_mem rules w m t hf
    obtain ⟨⟨a, b, hg0⟩, hs0, hs1, hs2⟩ := hw r hr w m hcap
    by_cases h0 : (t == "$0") = true
    · simp [h0]
    · rw [hg0] at hs0
      simp only [wfSpan] at hs0
      have ha : a ≤ w.length := le_trans hs0.1 hs0.2
      have hpre : sliceTo w.data a = some (w.data.take a) := by
        simp [sliceTo, ha]
      obtain ⟨r1, hr1⟩ :=
        Option.isSome_iff_exists.mp (substStep_isSome w t "$1" m.g1 hs1)
      obtain ⟨r2, hr2⟩ :=
        Option.isSome_iff_exists.mp (substStep_isSome w r1 "$2" m.g2 hs2)
      simp [h0, hg0, hpre, hr1, hr2]

/-- Claim C9: with tables whose rule patterns only report well-formed
capture spans (the contract `Regex::captures` provides once the tables are
initialized), the four string/boolean conversion functions never hit a
modelled panic on any input; `is_uncountable`, being built from total
comparisons only, is total by construction. -/
theorem api_functions_total (T : Tables) (hT : WFTables T) (w : String) :
    (to_plural T w).isSome ∧ (to_singular T w).isSome ∧
      (is_plural T w).isSome ∧ (is_singular T w).isSome := by
  obtain ⟨hp, hs⟩ := hT
  refine ⟨?_, ?_, ?_, ?_⟩
  · unfold to_plural
    by_cases hu : is_uncountable T w = true
    · simp [hu]
    · cases hl : lookupBySingular T.irregular (lower_case w) with
      | some p => simp [hu, hl]
      | none =>
        obtain ⟨v, hv⟩ := Option.isSome_iff_exists.mp
          (replace_with_rules_isSome w T.pluralRules hp)
        simp [hu, hl, hv]
  · unfold to_singular
    by_cases hu : is_uncountable T w = true
    · simp [hu]
    · cases hl : lookupByPlural T.irregular (lower_case w) with
      | some p => simp [hu, hl]
      | none =>
        obtain ⟨v, hv⟩ := Option.isSome_iff_exists.mp
          (replace_with_rules_isSome w T.singularRules hs)
        simp [hu, hl, hv]
  · unfold is_plural
    by_cases hu : is_uncountable T w = true
    · simp [hu]
    · cases hl : irregularPluralFlag T.irregular (lower_case w) with
      | some b => simp [hu, hl]
      | none =>
        obtain ⟨v, hv⟩ := Option.isSome_iff_exists.mp
          (replace_with_rules_isSome (lower_case w) T.pluralRules hp)
        simp [hu, hl, hv]
  · unfold is_singular
    by_cases hu : is_uncountable T w = true
    · simp [hu]
    · cases hl : irregularSingularFlag T.irregular (lower_case w) with
      | some b => simp [hu, hl]
      | none =>
        obtain ⟨v, hv⟩ := Option.isSome_iff_exists.mp
          (replace_with_rules_isSome (lower_case w) T.singularRules hs)
        simp [hu, hl, hv]

theorem specTables_wf : WFTables specTables := by
  constructor
  · intro r hr w c hc
    simp only [specTables, List.mem_singleton] at hr
    subst hr
    simp only [appendSRule] at hc
    cases hc
    exact ⟨⟨_, _, rfl⟩, ⟨le_refl _, le_refl _⟩, trivial, trivial⟩
  · intro r hr w c hc
    simp only [specTables, List.mem_singleton] at hr
    subst hr
    simp only [stripSRule] at hc
    split at hc
    · cases hc
      exact ⟨⟨_, _, rfl⟩, ⟨Nat.sub_le _ _, le_refl _⟩, trivial, trivial⟩
    · exact absurd hc (by simp)

/-- Witness for C9 at the modelled tables and the word `ox`. -/
theorem api_functions_total_witness :
    WFTables specTables ∧
      ((to_plural specTables "ox").isSome ∧
        (to_singular specTables "ox").isSome ∧
        (is_plural specTables "ox").isSome ∧
        (is_singular specTables "ox").isSome) :=
  ⟨specTables_wf, api_functions_total specTables specTables_wf "ox"⟩

/-- Claim C10: `replace_with_rules` substitutes `$1` throughout the
template before `$2`, so text captured by group 1 that itself contains the
characters `$2` is rewritten again by the group-2 substitution: on the word
`a$2b` with template `x$1y` the code yields `xby`, whereas simultaneous,
independent per-placeholder substitution yields `x$2y`. -/
theorem substitution_sequential_not_simultaneous :
    replace_with_rules "a$2b" [dollarRule] = some "xby" ∧
      substSimultaneous "x$1y" "$2" "b" = "x$2y" ∧
      ("xby" : String) ≠ "x$2y" := by
  decide
